import Mathlib

/-!
Verification of the retrieval-and-grounding core of a RAG chat application.

Modelling conventions:
- JavaScript numbers are modelled as real numbers.  A NaN value is modelled
  as `none` in `Option ℝ`; a well-defined score is `some x`.
- JavaScript strings are modelled as lists of characters (`Str`).  All inputs
  considered here are ASCII, where the UTF-16 length used by JavaScript
  agrees with the character count.
- Remote calls (embedding, generation) are modelled as oracle parameters.
-/

namespace Chatbot

/-- Strings of the source program, modelled as character lists. -/
abbrev Str := List Char

/-- The characters matched by the JavaScript whitespace class used by
`trim` and the regex class in the chunker.  Only the ASCII members are
listed; the inputs considered in this development are ASCII. -/
def isJsWs (c : Char) : Bool :=
  c == ' ' || c == '\t' || c == '\n' || c == '\r' || c == '\x0b' || c == '\x0c'

/-- JavaScript `String.prototype.trim`: drop leading and trailing whitespace. -/
def jsTrim (s : Str) : Str :=
  ((s.dropWhile isJsWs).reverse.dropWhile isJsWs).reverse

/-- A document chunk as in the `DocumentChunk` interface of the source.
The optional `embedding` field is `none` when the field is absent
(JavaScript `undefined`, falsy); note that a present-but-empty embedding
array is `some []`, which is truthy in JavaScript. -/
structure DocumentChunk where
  id : Str
  docId : Str
  docTitle : Str
  text : Str
  embedding : Option (List ℝ)

/-! ### cosineSimilarity (src/services/geminiService.ts)

`vecA.reduce((sum, a, i) => sum + a * vecB[i], 0)`: the reduction walks the
indices of `vecA`; an out-of-range access `vecB[i]` is `undefined` and
poisons the sum with NaN, modelled by `none`. -/

/-- The dot product as computed by the source: a fold over the indexed
elements of `vecA`, reading `vecB` at the same index. -/
noncomputable def dotProduct (vecA vecB : List ℝ) : Option ℝ :=
  vecA.enum.foldl
    (fun sum p =>
      match sum, vecB.get? p.1 with
      | some s, some b => some (s + p.2 * b)
      | _, _ => none)
    (some 0)

/-- `Math.sqrt(vec.reduce((sum, a) => sum + a * a, 0))`. -/
noncomputable def magnitude (vec : List ℝ) : ℝ :=
  Real.sqrt (vec.foldl (fun sum a => sum + a * a) 0)

/-- Cosine similarity as in the source: `dot / (magA * magB)`.
When the denominator is zero the JavaScript quotient is `0/0 = NaN`
(whenever the denominator is zero here, the numerator is provably zero,
because a zero magnitude forces the summed products to vanish), modelled
as `none`. -/
noncomputable def cosineSimilarity (vecA vecB : List ℝ) : Option ℝ :=
  match dotProduct vecA vecB with
  | none => none
  | some dot =>
      if magnitude vecA * magnitude vecB = 0 then none
      else some (dot / (magnitude vecA * magnitude vecB))

/-! ### findBestMatches (src/services/geminiService.ts) -/

/-- A chunk paired with its score, as built by the `chunks.map` step. -/
structure ScoredChunk where
  chunk : DocumentChunk
  score : Option ℝ

/-- `chunk.embedding ? cosineSimilarity(queryEmbedding, chunk.embedding) : -1`.
An absent embedding field is falsy and receives the sentinel −1; a present
embedding (even an empty array, which is truthy) goes through cosine. -/
noncomputable def scoreOf (queryEmbedding : List ℝ) (chunk : DocumentChunk) : Option ℝ :=
  match chunk.embedding with
  | some e => cosineSimilarity queryEmbedding e
  | none => some (-1)

/-- The comparator `(a, b) => b.score - a.score` of `scored.sort`, reflected
as the "may stay before" Boolean relation used by a stable sort: `a` may
precede `b` exactly when the comparator result is not positive.  A NaN
comparator result is treated as zero by the ECMAScript sort, so the pair is
left in its original order. -/
noncomputable def sortLe (a b : ScoredChunk) : Bool :=
  match b.score, a.score with
  | some sb, some sa => decide (sb - sa ≤ 0)
  | _, _ => true

/-- The scored list `chunks.map(chunk => ({chunk, score}))`. -/
noncomputable def scoredList (queryEmbedding : List ℝ) (chunks : List DocumentChunk) :
    List ScoredChunk :=
  chunks.map (fun chunk => ScoredChunk.mk chunk (scoreOf queryEmbedding chunk))

/-- `findBestMatches`: score every chunk, sort by descending score with the
stable ECMAScript sort, take the first `topK`, and return the chunks. -/
noncomputable def findBestMatches (queryEmbedding : List ℝ) (chunks : List DocumentChunk)
    (topK : ℕ) : List DocumentChunk :=
  (((scoredList queryEmbedding chunks).mergeSort sortLe).take topK).map ScoredChunk.chunk

/-! ### getEmbeddings (src/services/geminiService.ts) -/

/-- Outcome of one remote `embedContent` call. -/
inductive EmbedOutcome
  | ok (values : List ℝ)
  | noValues
  | err

/-- The per-text loop of `getEmbeddings`.  The first component of the state
is the `embeddings` array being built; the second records which texts were
actually sent to the remote call (texts that are empty or whitespace-only
are answered with `[]` locally, without a call).  A call that fails or
returns no `embedding.values` contributes `[]` and the loop continues. -/
def getEmbeddingsRun (callEmbed : Str → EmbedOutcome) (texts : List Str) :
    List (List ℝ) × List Str :=
  texts.foldl
    (fun acc text =>
      if jsTrim text = [] then (acc.1 ++ [[]], acc.2)
      else
        match callEmbed text with
        | .ok values => (acc.1 ++ [values], acc.2 ++ [text])
        | .noValues => (acc.1 ++ [[]], acc.2 ++ [text])
        | .err => (acc.1 ++ [[]], acc.2 ++ [text]))
    ([], [])

/-- The embeddings returned by `getEmbeddings`. -/
def getEmbeddings (callEmbed : Str → EmbedOutcome) (texts : List Str) : List (List ℝ) :=
  (getEmbeddingsRun callEmbed texts).1

/-- The vector produced for one input text. -/
def itemEmbed (callEmbed : Str → EmbedOutcome) (text : Str) : List ℝ :=
  if jsTrim text = [] then []
  else
    match callEmbed text with
    | .ok values => values
    | .noValues => []
    | .err => []

/-! ### chunkText (src/services/pdfService.ts)

`text.match(/[^.!?]+[.!?]+|\s\n/g)` is the sentence splitter.  The global
match scans left to right; at each position the first alternative (a
maximal run of non-terminators followed by a maximal run of terminators)
is tried first, then the two-character alternative (a whitespace character
followed by a newline); on failure the scan advances one character.
Because the two character classes of the first alternative are complements,
backtracking never helps, so the first alternative succeeds at a
non-terminator position exactly when a terminator occurs later in the
remaining text. -/

/-- The sentence-terminator class `[.!?]`. -/
def isSentTerm (c : Char) : Bool :=
  c == '.' || c == '!' || c == '?'

/-- The scanning loop for the matches of `/[^.!?]+[.!?]+|\s\n/g`.  The
`fuel` argument makes the recursion structural; every step of the scan
consumes at least one character, so a fuel equal to the length of the
remaining text (as supplied by `sentenceUnits`) is never exhausted. -/
def sentenceUnitsGo : ℕ → Str → List Str
  | 0, _ => []
  | _ + 1, [] => []
  | fuel + 1, c :: rest =>
    if isSentTerm c then
      sentenceUnitsGo fuel rest
    else
      match (c :: rest).dropWhile (fun x => !isSentTerm x) with
      | [] =>
          match rest with
          | [] => []
          | n :: rest2 =>
            if isJsWs c && n == '\n' then [c, n] :: sentenceUnitsGo fuel rest2
            else sentenceUnitsGo fuel rest
      | t :: after =>
          ((c :: rest).takeWhile (fun x => !isSentTerm x) ++ (t :: after).takeWhile isSentTerm)
            :: sentenceUnitsGo fuel ((t :: after).dropWhile isSentTerm)

/-- All matches of `/[^.!?]+[.!?]+|\s\n/g`, in scan order.  Characters not
covered by any match are skipped, exactly as `String.prototype.match`
skips them. -/
def sentenceUnits (s : Str) : List Str := sentenceUnitsGo s.length s

/-- `text.match(...) || [text]`: when there is no match at all, the whole
text is the single sentence unit. -/
def chunkSentences (text : Str) : List Str :=
  match sentenceUnits text with
  | [] => [text]
  | u :: us => u :: us

/-- One iteration of the accumulation loop of `chunkText`: if appending the
next sentence would exceed `chunkSize`, flush the trimmed buffer and start
a new buffer with the sentence, else extend the buffer. -/
def chunkStep (chunkSize : ℕ) (st : List Str × Str) (sentence : Str) : List Str × Str :=
  if chunkSize < (st.2 ++ sentence).length then (st.1 ++ [jsTrim st.2], sentence)
  else (st.1, st.2 ++ sentence)

/-- The final `if (currentChunk.trim()) chunks.push(currentChunk.trim())`:
flush the remaining buffer when its trim is truthy (non-empty). -/
def chunkFlush (st : List Str × Str) : List Str :=
  if jsTrim st.2 = [] then st.1 else st.1 ++ [jsTrim st.2]

/-- `chunkText`: accumulate sentence units into chunks of at most
`chunkSize` characters, flush a final non-blank buffer, and drop empty
chunks (`chunks.filter(c => c.length > 0)`). -/
def chunkText (text : Str) (chunkSize : ℕ) : List Str :=
  (chunkFlush ((chunkSentences text).foldl (chunkStep chunkSize) ([], []))).filter
    (fun c => decide (0 < c.length))

/-! ### Conversation data model (src/types.ts, src/components/ChatInterface.tsx) -/

/-- Message roles. -/
inductive Role
  | user
  | model
deriving DecidableEq, BEq

/-- A conversation message.  Fields that the source leaves `undefined` are
modelled as `none` (or `false` for the optional Boolean flag). -/
structure Message where
  id : Str
  role : Role
  content : Str
  timestamp : ℕ
  language : Option Str
  citations : Option (List Str)
  isAudio : Bool
  shareContent : Option Str

/-- A captured lead record. -/
structure Lead where
  id : Str
  phoneNumber : Str
  queryContext : Str
  timestamp : ℕ

/-- The result shape of `generateRAGResponse`. -/
structure RAGResponse where
  text : Str
  language : Str
  citations : Option (List Str)

/-- The chat component state relevant to the claims: the conversation
history, the lead-capture mode flag, and the persisted leads. -/
structure ChatState where
  messages : List Message
  waitingForNumber : Bool
  leads : List Lead

/-- The guard shared by the normal turn and the detailed-report turn:
`queryEmbedding.length > 0 && queryEmbedding[0].length > 0
  ? findBestMatches(queryEmbedding[0], allChunks, topK) : []`. -/
noncomputable def guardedMatches (queryEmbedding : List (List ℝ))
    (chunks : List DocumentChunk) (topK : ℕ) : List DocumentChunk :=
  match queryEmbedding with
  | [] => []
  | q :: _ => if 0 < q.length then findBestMatches q chunks topK else []

/-- `processQuery` of ChatInterface: append the user message, embed the
query, retrieve top-5 chunks behind the empty-embedding guard, generate
the answer (modelled by the oracle `gen`), and append the model message
with retrieval citations followed by search citations. -/
noncomputable def processQuery (embed : Str → EmbedOutcome)
    (gen : Str → List DocumentChunk → RAGResponse) (allChunks : List DocumentChunk)
    (now : ℕ) (st : ChatState) (queryText : Str) (isVoice : Bool) : ChatState :=
  let userMsg : Message :=
    ⟨(toString now).data, Role.user, queryText, now, none, none, isVoice, none⟩
  let queryEmbedding := getEmbeddings embed [queryText]
  let relevantChunks := guardedMatches queryEmbedding allChunks 5
  let response := gen queryText relevantChunks
  let botMsg : Message :=
    ⟨(toString (now + 1)).data, Role.model, response.text, now, some response.language,
      some (relevantChunks.map DocumentChunk.docTitle ++ response.citations.getD []), false, none⟩
  { st with messages := st.messages ++ [userMsg, botMsg] }

/-- The validation-failure message content. -/
def validationFailContent : Str :=
  "Please enter a valid phone number (e.g., +91 95265 69313).".data

/-- The fallback lead context when no model message exists (or the last
model message has falsy, i.e. empty, content). -/
def defaultLeadContext : Str := "User asked for details".data

/-- The fallback report topic. -/
def defaultTopic : Str := "Samastha Kerala Jamiyyathul Ulama".data

/-- `messages.slice().reverse().find(m => m.role === 'user' && m.content !== text)`
followed by the ternary fallback to the default topic. -/
def reportTopic (messages : List Message) (text : Str) : Str :=
  match messages.reverse.find? (fun m => m.role == Role.user && !(m.content == text)) with
  | some m => m.content
  | none => defaultTopic

/-- `messages.filter(m => m.role === 'model').slice(-1)[0]?.content
|| "User asked for details"`; an empty content string is falsy and also
falls back. -/
def lastModelContext (messages : List Message) : Str :=
  match (messages.filter (fun m => m.role == Role.model)).getLast? with
  | some m => if m.content = [] then defaultLeadContext else m.content
  | none => defaultLeadContext

/-- The detailed-report prompt template, interpolating the topic. -/
def detailedPrompt (topicQuery : Str) : Str :=
  "\n                The user has requested a detailed report on: \"".data ++ topicQuery ++
    "\".\n                Provide a comprehensive explanation using the context provided.\n                Structure it clearly with a Title, Introduction, Key Points (bulleted), and Conclusion.\n             ".data

/-- `text.replace(/\*\*/g, ...)` with the empty replacement: remove the
non-overlapping occurrences of a double asterisk, left to right. -/
def stripBold : Str → Str
  | '*' :: '*' :: rest => stripBold rest
  | c :: rest => c :: stripBold rest
  | [] => []

/-- The content of the delivered report message, interpolating the topic
and the generated text. -/
def reportContent (topicQuery : Str) (responseText : Str) : Str :=
  "✅ **Lead Verified.**\n\nHere is your detailed report on **\"".data ++ topicQuery ++
    "\"**:\n\n---\n\n".data ++ responseText

/-- `handleSend` of ChatInterface: the blank-input guard, then the
lead-capture interception when `waitingForNumber` is set (digit-count
validation, lead persistence, detailed-report turn with topK = 8), else
the normal query path. -/
noncomputable def handleSend (embed : Str → EmbedOutcome)
    (gen : Str → List DocumentChunk → RAGResponse) (allChunks : List DocumentChunk)
    (now : ℕ) (appName : Str) (st : ChatState) (text : Str) : ChatState :=
  if jsTrim text = [] then st
  else if st.waitingForNumber then
    let digitsOnly := text.filter Char.isDigit
    if digitsOnly.length < 10 ∨ 15 < digitsOnly.length then
      { st with messages := st.messages ++
          [⟨(toString now).data, Role.model, validationFailContent, now, none, none, false, none⟩] }
    else
      let lead : Lead :=
        ⟨(toString now).data, text, (lastModelContext st.messages).take 100 ++ "...".data, now⟩
      let topicQuery := reportTopic st.messages text
      let queryEmbedding := getEmbeddings embed [topicQuery]
      let relevantChunks := guardedMatches queryEmbedding allChunks 8
      let response := gen (detailedPrompt topicQuery) relevantChunks
      let shareableText := stripBold response.text ++ "\n\nGenerated by ".data ++ appName
      { messages := st.messages ++
          [⟨(toString now).data, Role.user, text, now, none, none, false, none⟩,
           ⟨"report-".data ++ (toString now).data, Role.model,
             reportContent topicQuery response.text, now, none, none, false,
             some shareableText⟩],
        waitingForNumber := false,
        leads := st.leads ++ [lead] }
  else
    processQuery embed gen allChunks now st text false

/-! ### Live session tool-call handler (connectLiveSession) -/

/-- A tool call reported by the live session; `query` is the extracted
`args.query` argument. -/
structure LiveFunctionCall where
  id : Str
  name : Str
  query : Str

/-- The payload sent back via `sendToolResponse`. -/
structure ToolResponsePayload where
  id : Str
  name : Str
  result : Str

/-- JavaScript `Array.prototype.join` with a separator. -/
def jsJoin (sep : Str) : List Str → Str
  | [] => []
  | [s] => s
  | s :: t :: rest => s ++ sep ++ jsJoin sep (t :: rest)

/-- The retrieval performed inside the live tool-call handler:
`findBestMatches(embeddings[0], chunks, 3)` with no empty-embedding guard.
For the singleton batch passed here, `embeddings[0]` is the head of the
result of `getEmbeddings`. -/
noncomputable def liveSearchMatches (embed : Str → EmbedOutcome)
    (allChunks : List DocumentChunk) (query : Str) : List DocumentChunk :=
  findBestMatches ((getEmbeddings embed [query]).headD []) allChunks 3

/-- The handler for one reported function call: only
`search_knowledge_base` is served; the response is correlated by the call
identifier and carries the joined matched texts, or the sentinel string
when the join is empty (falsy). -/
noncomputable def handleLiveToolCall (embed : Str → EmbedOutcome)
    (allChunks : List DocumentChunk) (fc : LiveFunctionCall) : Option ToolResponsePayload :=
  if fc.name = "search_knowledge_base".data then
    let matchedChunks := liveSearchMatches embed allChunks fc.query
    let joined := jsJoin "\n\n".data (matchedChunks.map DocumentChunk.text)
    let resultText := if joined = [] then "No relevant documents found.".data else joined
    some ⟨fc.id, fc.name, resultText⟩
  else none

/-! ## General helper lemmas -/

/-- The non-whitespace characters of a string. -/
def nonWs (s : Str) : Str := s.filter (fun c => !isJsWs c)

theorem nonWs_dropWhileWs (s : Str) : nonWs (s.dropWhile isJsWs) = nonWs s := by
  conv_rhs => rw [← List.takeWhile_append_dropWhile (p := isJsWs) (l := s)]
  rw [nonWs, nonWs, List.filter_append]
  have h : (s.takeWhile isJsWs).filter (fun c => !isJsWs c) = [] := by
    rw [List.filter_eq_nil_iff]
    intro a ha
    simp [List.mem_takeWhile_imp ha]
  rw [h, List.nil_append]

theorem nonWs_jsTrim (s : Str) : nonWs (jsTrim s) = nonWs s := by
  rw [jsTrim]
  rw [show nonWs (((s.dropWhile isJsWs).reverse.dropWhile isJsWs).reverse) =
      (nonWs ((s.dropWhile isJsWs).reverse.dropWhile isJsWs)).reverse from
    List.filter_reverse _ _]
  rw [nonWs_dropWhileWs]
  rw [show nonWs (s.dropWhile isJsWs).reverse = (nonWs (s.dropWhile isJsWs)).reverse from
    List.filter_reverse _ _]
  rw [nonWs_dropWhileWs, List.reverse_reverse]

theorem jsTrim_eq_nil_ws (s : Str) (h : jsTrim s = []) : ∀ c ∈ s, isJsWs c := by
  have h1 : (s.dropWhile isJsWs).reverse.dropWhile isJsWs = [] := by
    have := congrArg List.reverse h
    simpa [jsTrim] using this
  have h2 : ∀ c ∈ (s.dropWhile isJsWs).reverse, isJsWs c := List.dropWhile_eq_nil_iff.mp h1
  intro c hc
  rw [← List.takeWhile_append_dropWhile (p := isJsWs) (l := s)] at hc
  rcases List.mem_append.mp hc with h3 | h3
  · exact List.mem_takeWhile_imp h3
  · exact h2 c (List.mem_reverse.mpr h3)

theorem isJsWs_not_digit (c : Char) (h : isJsWs c = true) : Char.isDigit c = false := by
  rw [isJsWs] at h
  simp only [Bool.or_eq_true, beq_iff_eq] at h
  rcases h with ((((h | h) | h) | h) | h) | h <;> subst h <;> decide

theorem jsTrim_ne_nil_of_digit (text : Str)
    (h : 1 ≤ (text.filter Char.isDigit).length) : jsTrim text ≠ [] := by
  intro hnil
  have hws := jsTrim_eq_nil_ws text hnil
  have : text.filter Char.isDigit = [] := by
    rw [List.filter_eq_nil_iff]
    intro a ha hdig
    rw [isJsWs_not_digit a (hws a ha)] at hdig
    exact Bool.false_ne_true hdig
  rw [this] at h
  simp at h

/-! ## getEmbeddings: shape of the result (claim C9) -/

theorem getEmbeddingsRun_loop (callEmbed : Str → EmbedOutcome) :
    ∀ (texts : List Str) (acc : List (List ℝ) × List Str),
      texts.foldl
        (fun acc text =>
          if jsTrim text = [] then (acc.1 ++ [[]], acc.2)
          else
            match callEmbed text with
            | .ok values => (acc.1 ++ [values], acc.2 ++ [text])
            | .noValues => (acc.1 ++ [[]], acc.2 ++ [text])
            | .err => (acc.1 ++ [[]], acc.2 ++ [text])) acc =
      (acc.1 ++ texts.map (itemEmbed callEmbed),
       acc.2 ++ texts.filter (fun t => !decide (jsTrim t = [])))
  | [], acc => by simp
  | t :: ts, acc => by
    rw [List.foldl_cons, getEmbeddingsRun_loop callEmbed ts _]
    by_cases h : jsTrim t = []
    · simp [h, itemEmbed]
    · cases hc : callEmbed t <;> simp [h, hc, itemEmbed]

/-- C9: `getEmbeddings` yields exactly one vector per input text, in order
(the result is the pointwise `itemEmbed` image of the inputs, so its length
equals the input length and each item depends only on its own text and its
own call outcome — a per-item failure yields `[]` there and nowhere else);
the remote call trace contains exactly the non-blank texts, so an empty or
whitespace-only text is answered locally. -/
theorem getEmbeddings_shape (callEmbed : Str → EmbedOutcome) (texts : List Str) :
    getEmbeddingsRun callEmbed texts =
      (texts.map (itemEmbed callEmbed),
       texts.filter (fun t => !decide (jsTrim t = []))) ∧
    (getEmbeddings callEmbed texts).length = texts.length := by
  have h := getEmbeddingsRun_loop callEmbed texts ([], [])
  constructor
  · rw [getEmbeddingsRun]
    simpa using h
  · rw [getEmbeddings, getEmbeddingsRun]
    rw [show (([], []) : List (List ℝ) × List Str) = (([] : List (List ℝ)), ([] : List Str)) from rfl] at h
    rw [h]
    simp

/-! ## Lead capture: invalid submission (claim C5) -/

/-- The message appended on validation failure. -/
def validationFailMsg (now : ℕ) : Message :=
  ⟨(toString now).data, Role.model, validationFailContent, now, none, none, false, none⟩

/-- C5: while awaiting a contact number, a non-blank submission whose digit
count (after stripping non-digits) is outside [10, 15] leaves the state in
AWAITING_CONTACT, appends only the validation-failure model message,
records no lead, and adds no user message. -/
theorem awaitingContact_invalid (embed : Str → EmbedOutcome)
    (gen : Str → List DocumentChunk → RAGResponse) (allChunks : List DocumentChunk)
    (now : ℕ) (appName : Str) (st : ChatState) (text : Str)
    (hwait : st.waitingForNumber = true)
    (hblank : jsTrim text ≠ [])
    (hdig : (text.filter Char.isDigit).length < 10 ∨ 15 < (text.filter Char.isDigit).length) :
    handleSend embed gen allChunks now appName st text =
      { st with messages := st.messages ++ [validationFailMsg now] } ∧
    (handleSend embed gen allChunks now appName st text).waitingForNumber = true ∧
    (handleSend embed gen allChunks now appName st text).leads = st.leads ∧
    (handleSend embed gen allChunks now appName st text).messages.filter
        (fun m => m.role == Role.user) =
      st.messages.filter (fun m => m.role == Role.user) := by
  have hmain : handleSend embed gen allChunks now appName st text =
      { st with messages := st.messages ++ [validationFailMsg now] } := by
    rw [handleSend, if_neg hblank, hwait, if_pos rfl, if_pos hdig]
    rfl
  refine ⟨hmain, ?_, ?_, ?_⟩
  · rw [hmain, hwait]
  · rw [hmain]
  · rw [hmain]
    simp [validationFailMsg]
    decide

/-- Witness for C5 at the concrete input "12345" (5 digits). -/
theorem awaitingContact_invalid_witness :
    (jsTrim "12345".data ≠ [] ∧
      (("12345".data.filter Char.isDigit).length < 10 ∨
        15 < ("12345".data.filter Char.isDigit).length)) ∧
    (handleSend (fun _ => EmbedOutcome.err) (fun _ _ => ⟨[], [], none⟩) [] 0 []
        ⟨[], true, []⟩ "12345".data).leads = [] ∧
    (handleSend (fun _ => EmbedOutcome.err) (fun _ _ => ⟨[], [], none⟩) [] 0 []
        ⟨[], true, []⟩ "12345".data).waitingForNumber = true := by
  have h := awaitingContact_invalid (fun _ => EmbedOutcome.err) (fun _ _ => ⟨[], [], none⟩)
    [] 0 [] ⟨[], true, []⟩ "12345".data rfl (by decide) (by decide)
  exact ⟨⟨by decide, by decide⟩, h.2.2.1, h.2.1⟩

/-! ## Lead capture: valid submission (claim C6) -/

/-- C6: while awaiting a contact number, a submission with 10 to 15 digits
(after stripping non-digits) returns the state machine to NORMAL, appends
the raw input as a user message, and persists a lead whose `phoneNumber`
is the literal raw input and whose `queryContext` is the content of the
most recent model message truncated to 100 characters with an ellipsis
appended. -/
theorem awaitingContact_valid (embed : Str → EmbedOutcome)
    (gen : Str → List DocumentChunk → RAGResponse) (allChunks : List DocumentChunk)
    (now : ℕ) (appName : Str) (st : ChatState) (text : Str) (m : Message)
    (hwait : st.waitingForNumber = true)
    (hdig : 10 ≤ (text.filter Char.isDigit).length ∧ (text.filter Char.isDigit).length ≤ 15)
    (hm : (st.messages.filter (fun x => x.role == Role.model)).getLast? = some m)
    (hmne : m.content ≠ []) :
    (handleSend embed gen allChunks now appName st text).waitingForNumber = false ∧
    (handleSend embed gen allChunks now appName st text).leads =
      st.leads ++ [⟨(toString now).data, text, m.content.take 100 ++ "...".data, now⟩] ∧
    ∃ rep,
      (handleSend embed gen allChunks now appName st text).messages =
        st.messages ++
          [⟨(toString now).data, Role.user, text, now, none, none, false, none⟩, rep] := by
  have hblank : jsTrim text ≠ [] := jsTrim_ne_nil_of_digit text (by omega)
  have hctx : lastModelContext st.messages = m.content := by
    rw [lastModelContext, hm]
    exact if_neg hmne
  rw [handleSend, if_neg hblank, hwait, if_pos rfl,
    if_neg (by omega : ¬((text.filter Char.isDigit).length < 10 ∨
      15 < (text.filter Char.isDigit).length))]
  refine ⟨rfl, ?_, ?_⟩
  · simp only [hctx]
  · exact ⟨_, rfl⟩

/-- Witness for C6 at the concrete input "+91 95265 69313" (11 digits). -/
theorem awaitingContact_valid_witness :
    (10 ≤ ("+91 95265 69313".data.filter Char.isDigit).length ∧
      ("+91 95265 69313".data.filter Char.isDigit).length ≤ 15) ∧
    (handleSend (fun _ => EmbedOutcome.err) (fun _ _ => ⟨"R".data, "en".data, none⟩) [] 7 []
        ⟨[⟨"1".data, Role.model, "Here is the info".data, 0, none, none, false, none⟩], true, []⟩
        "+91 95265 69313".data).waitingForNumber = false ∧
    (handleSend (fun _ => EmbedOutcome.err) (fun _ _ => ⟨"R".data, "en".data, none⟩) [] 7 []
        ⟨[⟨"1".data, Role.model, "Here is the info".data, 0, none, none, false, none⟩], true, []⟩
        "+91 95265 69313".data).leads =
      [⟨(toString 7).data, "+91 95265 69313".data,
        "Here is the info".data.take 100 ++ "...".data, 7⟩] := by
  have h := awaitingContact_valid (fun _ => EmbedOutcome.err)
    (fun _ _ => ⟨"R".data, "en".data, none⟩) [] 7 []
    ⟨[⟨"1".data, Role.model, "Here is the info".data, 0, none, none, false, none⟩], true, []⟩
    "+91 95265 69313".data
    ⟨"1".data, Role.model, "Here is the info".data, 0, none, none, false, none⟩
    rfl (by decide) (by rfl) (by decide)
  refine ⟨by decide, h.1, ?_⟩
  rw [h.2.1]
  rfl

/-! ## Detailed-report turn: topic selection and topK (claim C8) -/

/-- The topic the claim predicts: the content of the most recent user
message with content different from the submitted text, with the default
fallback.  Stated through `filter` and `getLast?` rather than the
`reverse`/`find?` of the source. -/
def amendedTopic (messages : List Message) (text : Str) : Str :=
  match (messages.filter (fun m => m.role == Role.user && !(m.content == text))).getLast? with
  | some m => m.content
  | none => defaultTopic

theorem reportTopic_eq_amendedTopic (messages : List Message) (text : Str) :
    reportTopic messages text = amendedTopic messages text := by
  rw [reportTopic, amendedTopic, List.filter_getLast?]

/-- C8 (amended): the detailed-report turn following a valid lead capture
retrieves through the same guarded pipeline as a normal turn but with
topK = 8, and its topic is the content of the most recent user message
whose content differs from the submitted contact text (not simply the most
recent prior user message), falling back to the default topic when no such
message exists; the delivered report interpolates this topic and the text
generated from the detailed prompt over the topK-8 retrieval. -/
theorem detailedReport_pipeline (embed : Str → EmbedOutcome)
    (gen : Str → List DocumentChunk → RAGResponse) (allChunks : List DocumentChunk)
    (now : ℕ) (appName : Str) (st : ChatState) (text : Str)
    (hwait : st.waitingForNumber = true)
    (hdig : 10 ≤ (text.filter Char.isDigit).length ∧ (text.filter Char.isDigit).length ≤ 15) :
    (handleSend embed gen allChunks now appName st text).messages.getLast? =
      some ⟨"report-".data ++ (toString now).data, Role.model,
        reportContent (amendedTopic st.messages text)
          (gen (detailedPrompt (amendedTopic st.messages text))
            (guardedMatches (getEmbeddings embed [amendedTopic st.messages text])
              allChunks 8)).text,
        now, none, none, false,
        some (stripBold (gen (detailedPrompt (amendedTopic st.messages text))
            (guardedMatches (getEmbeddings embed [amendedTopic st.messages text])
              allChunks 8)).text ++ "\n\nGenerated by ".data ++ appName)⟩ := by
  have hblank : jsTrim text ≠ [] := jsTrim_ne_nil_of_digit text (by omega)
  rw [handleSend, if_neg hblank, hwait, if_pos rfl,
    if_neg (by omega : ¬((text.filter Char.isDigit).length < 10 ∨
      15 < (text.filter Char.isDigit).length))]
  simp only [← reportTopic_eq_amendedTopic]
  simp

/-- Witness for C8 (amended) at a concrete state with one earlier user
turn. -/
theorem detailedReport_pipeline_witness :
    (10 ≤ ("+91 95265 69313".data.filter Char.isDigit).length ∧
      ("+91 95265 69313".data.filter Char.isDigit).length ≤ 15) ∧
    (handleSend (fun _ => EmbedOutcome.err) (fun _ _ => ⟨"R".data, "en".data, none⟩) [] 7 []
        ⟨[⟨"1".data, Role.user, "moon sighting".data, 0, none, none, false, none⟩], true, []⟩
        "+91 95265 69313".data).messages.getLast? =
      some ⟨"report-".data ++ (toString 7).data, Role.model,
        reportContent "moon sighting".data "R".data, 7, none, none, false,
        some (stripBold "R".data ++ "\n\nGenerated by ".data ++ [])⟩ := by
  have h := detailedReport_pipeline (fun _ => EmbedOutcome.err)
    (fun _ _ => ⟨"R".data, "en".data, none⟩) [] 7 []
    ⟨[⟨"1".data, Role.user, "moon sighting".data, 0, none, none, false, none⟩], true, []⟩
    "+91 95265 69313".data rfl (by decide)
  refine ⟨by decide, ?_⟩
  rw [h]
  rfl

/-- Counterexample for C8 as stated: a prior user query whose content
equals the submitted contact text is skipped by the source selection, so
the report falls back to the default topic even though a most recent prior
user message exists. -/
theorem detailedReport_topic_cex :
    (([⟨"1".data, Role.user, "+91 95265 69313".data, 0, none, none, false, none⟩,
       ⟨"2".data, Role.model, "Answer".data, 0, none, none, false,
         none⟩] : List Message).reverse.find? (fun m => m.role == Role.user)) =
      some ⟨"1".data, Role.user, "+91 95265 69313".data, 0, none, none, false, none⟩ ∧
    reportTopic
        [⟨"1".data, Role.user, "+91 95265 69313".data, 0, none, none, false, none⟩,
         ⟨"2".data, Role.model, "Answer".data, 0, none, none, false, none⟩]
        "+91 95265 69313".data = defaultTopic ∧
    defaultTopic ≠ "+91 95265 69313".data := by
  refine ⟨by rfl, by rfl, by decide⟩

/-! ## Chunker: content preservation (claim C2) -/

theorem nonWs_append (a b : Str) : nonWs (a ++ b) = nonWs a ++ nonWs b :=
  List.filter_append a b

theorem nonWs_all_ws (s : Str) (h : ∀ c ∈ s, isJsWs c) : nonWs s = [] := by
  rw [nonWs, List.filter_eq_nil_iff]
  intro a ha
  simp [h a ha]

theorem join_filter_pos (l : List Str) :
    (l.filter (fun c => decide (0 < c.length))).join = l.join := by
  induction l with
  | nil => rfl
  | cons a l ih =>
    by_cases h : 0 < a.length
    · simp [List.filter_cons, h, ih]
    · have ha : a = [] := by cases a <;> simp_all
      simp [List.filter_cons, h, ih, ha]

theorem chunkFold_nonWs (n : ℕ) :
    ∀ (sents : List Str) (cs : List Str) (cur : Str),
      nonWs ((sents.foldl (chunkStep n) (cs, cur)).1.join ++
        (sents.foldl (chunkStep n) (cs, cur)).2) =
      nonWs (cs.join ++ (cur ++ sents.join))
  | [], cs, cur => by simp
  | s :: ss, cs, cur => by
    rw [List.foldl_cons]
    by_cases h : n < (cur ++ s).length
    · rw [show chunkStep n (cs, cur) s = (cs ++ [jsTrim cur], s) by
        rw [chunkStep, if_pos h]]
      rw [chunkFold_nonWs n ss _ _]
      simp only [List.join_append, List.join_cons, List.join_nil, List.append_nil,
        nonWs_append, nonWs_jsTrim, List.append_assoc]
    · rw [show chunkStep n (cs, cur) s = (cs, cur ++ s) by
        rw [chunkStep, if_neg h]]
      rw [chunkFold_nonWs n ss _ _]
      simp only [List.join_cons, nonWs_append, List.append_assoc]

/-- C2 (amended): concatenating the chunks returned by `chunkText`
preserves exactly the non-whitespace content of the concatenated sentence
units (whitespace can be lost only to trimming); hence, whenever the
sentence-boundary pattern covers the whole text, the original content is
reconstructed, and no returned chunk is empty.  Input text not covered by
any match of the pattern (for example a trailing fragment without a
sentence terminator, when an earlier sentence matched) is dropped. -/
theorem chunkText_content (text : Str) (n : ℕ) :
    nonWs (chunkText text n).join = nonWs (chunkSentences text).join ∧
    (∀ c ∈ chunkText text n, c ≠ []) ∧
    ((chunkSentences text).join = text → nonWs (chunkText text n).join = nonWs text) := by
  have hmain : nonWs (chunkText text n).join = nonWs (chunkSentences text).join := by
    rw [chunkText, join_filter_pos]
    have hinv := chunkFold_nonWs n (chunkSentences text) [] []
    simp only [List.join_nil, List.nil_append] at hinv
    rw [chunkFlush]
    by_cases h : jsTrim ((chunkSentences text).foldl (chunkStep n) ([], [])).2 = []
    · rw [if_pos h]
      have h2 : nonWs ((chunkSentences text).foldl (chunkStep n) ([], [])).2 = [] :=
        nonWs_all_ws _ (jsTrim_eq_nil_ws _ h)
      rw [nonWs_append, h2, List.append_nil] at hinv
      exact hinv
    · rw [if_neg h]
      rw [show ((((chunkSentences text).foldl (chunkStep n) ([], [])).1 ++
          [jsTrim ((chunkSentences text).foldl (chunkStep n) ([], [])).2]).join) =
          ((chunkSentences text).foldl (chunkStep n) ([], [])).1.join ++
            jsTrim ((chunkSentences text).foldl (chunkStep n) ([], [])).2 by simp]
      rw [nonWs_append, nonWs_jsTrim, ← nonWs_append]
      exact hinv
  refine ⟨hmain, ?_, fun hcov => by rw [hmain, hcov]⟩
  intro c hc hnil
  rw [chunkText] at hc
  have := List.of_mem_filter hc
  rw [hnil] at this
  simp at this

/-- Witness for C2 (amended) on a text fully covered by the sentence
pattern. -/
theorem chunkText_content_witness :
    (chunkSentences "Hi. Yo!".data).join = "Hi. Yo!".data ∧
    nonWs (chunkText "Hi. Yo!".data 500).join = nonWs "Hi. Yo!".data :=
  ⟨by decide, (chunkText_content "Hi. Yo!".data 500).2.2 (by decide)⟩

/-- Counterexample for C2 as stated: the text "First. Second" loses the
trailing fragment "Second", which no match of the sentence pattern covers,
so concatenating the chunks does not reconstruct the content even after
discounting all whitespace. -/
theorem chunkText_drop_cex :
    chunkText "First. Second".data 500 = ["First.".data] ∧
    nonWs (chunkText "First. Second".data 500).join ≠ nonWs "First. Second".data := by
  exact ⟨by decide, by decide⟩

/-! ## Sorting machinery for the matcher

`mergeSort` applied with two comparators that agree on the elements of the
list produces the same output; this lets the JS comparator (whose global
relation is not transitive because of the NaN case) be replaced, on lists
whose scores are all real, by a comparator derived from a linear order. -/

theorem merge_congr {α : Type _} (le₁ le₂ : α → α → Bool) :
    ∀ (l r : List α), (∀ a ∈ l, ∀ b ∈ r, le₁ a b = le₂ a b) →
      List.merge l r le₁ = List.merge l r le₂
  | [], r, _ => by simp
  | a :: l, [], _ => by simp
  | a :: l, b :: r, h => by
    rw [List.cons_merge_cons, List.cons_merge_cons, h a (by simp) b (by simp)]
    by_cases hb : le₂ a b = true
    · rw [if_pos hb, if_pos hb,
        merge_congr le₁ le₂ l (b :: r) (fun x hx y hy => h x (by simp [hx]) y hy)]
    · rw [if_neg hb, if_neg hb,
        merge_congr le₁ le₂ (a :: l) r (fun x hx y hy => h x hx y (by simp [hy]))]
termination_by l r => l.length + r.length

theorem mergeSort_congr {α : Type _} (le₁ le₂ : α → α → Bool) :
    ∀ (l : List α), (∀ a ∈ l, ∀ b ∈ l, le₁ a b = le₂ a b) →
      l.mergeSort le₁ = l.mergeSort le₂
  | [], _ => by simp
  | [a], _ => by simp
  | a :: b :: xs, h => by
    have hl1 : (List.splitInTwo ⟨a :: b :: xs, rfl⟩).1.1.length < xs.length + 1 + 1 := by
      simp [List.splitInTwo_fst]
      omega
    have hl2 : (List.splitInTwo ⟨a :: b :: xs, rfl⟩).2.1.length < xs.length + 1 + 1 := by
      simp [List.splitInTwo_snd]
      omega
    have hsplit : (List.splitInTwo ⟨a :: b :: xs, rfl⟩).1.1 ++
        (List.splitInTwo ⟨a :: b :: xs, rfl⟩).2.1 = a :: b :: xs :=
      List.splitInTwo_fst_append_splitInTwo_snd
        (⟨a :: b :: xs, rfl⟩ : { l : List α // l.length = xs.length + 2 })
    have hmf : ∀ x ∈ (List.splitInTwo ⟨a :: b :: xs, rfl⟩).1.1, x ∈ a :: b :: xs := by
      intro x hx
      rw [← hsplit]
      exact List.mem_append_left _ hx
    have hms : ∀ x ∈ (List.splitInTwo ⟨a :: b :: xs, rfl⟩).2.1, x ∈ a :: b :: xs := by
      intro x hx
      rw [← hsplit]
      exact List.mem_append_right _ hx
    simp only [List.mergeSort]
    rw [mergeSort_congr le₁ le₂ _ (fun x hx y hy => h x (hmf x hx) y (hmf y hy)),
      mergeSort_congr le₁ le₂ _ (fun x hx y hy => h x (hms x hx) y (hms y hy))]
    exact merge_congr le₁ le₂ _ _ (fun x hx y hy =>
      h x (hmf x (List.mem_mergeSort.mp hx)) y (hms y (List.mem_mergeSort.mp hy)))
termination_by l => l.length

/-- The score of a scored chunk as an element of a linear order, with NaN
sent to the bottom element. -/
noncomputable def keyOf (s : ScoredChunk) : WithBot ℝ :=
  match s.score with
  | some x => (x : WithBot ℝ)
  | none => ⊥

/-- A totally ordered stand-in for `sortLe`, agreeing with it on scored
chunks whose score is a real number. -/
noncomputable def keyLe (a b : ScoredChunk) : Bool := decide (keyOf b ≤ keyOf a)

theorem keyLe_trans : ∀ a b c : ScoredChunk, keyLe a b → keyLe b c → keyLe a c := by
  intro a b c hab hbc
  rw [keyLe, decide_eq_true_eq] at hab hbc ⊢
  exact le_trans hbc hab

theorem keyLe_total : ∀ a b : ScoredChunk, keyLe a b || keyLe b a := by
  intro a b
  rw [keyLe, keyLe]
  rcases le_total (keyOf a) (keyOf b) with h | h <;> simp [h]

theorem sortLe_eq_keyLe (a b : ScoredChunk) (ha : ∃ x, a.score = some x)
    (hb : ∃ y, b.score = some y) : sortLe a b = keyLe a b := by
  obtain ⟨x, hx⟩ := ha
  obtain ⟨y, hy⟩ := hb
  simp only [sortLe, keyLe, keyOf, hx, hy]
  rw [decide_eq_decide]
  rw [sub_nonpos, WithBot.coe_le_coe]

theorem scoredList_score (q : List ℝ) (chunks : List DocumentChunk)
    (hsome : ∀ c ∈ chunks, ∃ x, scoreOf q c = some x) :
    ∀ s ∈ scoredList q chunks, ∃ x, s.score = some x := by
  intro s hs
  rw [scoredList, List.mem_map] at hs
  obtain ⟨c, hc, hcs⟩ := hs
  obtain ⟨x, hx⟩ := hsome c hc
  exact ⟨x, by rw [← hcs]; exact hx⟩

/-- The strict "ranked before" relation the specification describes:
strictly greater score, or equal score and smaller original corpus
position. -/
def rankedBefore (x y : ℕ × ScoredChunk) : Prop :=
  (∃ a b, x.2.score = some a ∧ y.2.score = some b ∧ b < a) ∨
  (x.2.score = y.2.score ∧ x.1 < y.1)

/-- Scores strictly above the −1 sentinel. -/
noncomputable def scoredAbove (s : ScoredChunk) : Bool :=
  match s.score with
  | some x => decide (-1 < x)
  | none => false

/-- A chunk whose score against the query is a real number strictly above
the −1 sentinel. -/
noncomputable def scoreAboveSentinel (q : List ℝ) (c : DocumentChunk) : Bool :=
  scoredAbove ⟨c, scoreOf q c⟩

/-! ## Matcher: stable descending sort (claim C1) -/

/-- C1 (amended): when every corpus chunk receives a well-defined (real)
score — in particular when every chunk has a valid embedding with a
well-defined cosine against the query — and topK ≤ N, `findBestMatches`
returns exactly topK chunks, listed in an order in which each chunk
strictly precedes the next by score, with equal scores resolved by
original corpus position (stable descending sort).  Chunks with a missing
embedding are excluded from the result provided at least topK chunks
score strictly above the −1 sentinel; a valid chunk whose cosine is
exactly −1 ties with the sentinel, so the original claim's unconditional
exclusion fails (see the counterexample). -/
theorem findBestMatches_stable_sorted (q : List ℝ) (chunks : List DocumentChunk) (topK : ℕ)
    (hsome : ∀ c ∈ chunks, ∃ x, scoreOf q c = some x)
    (hk : topK ≤ chunks.length) :
    (findBestMatches q chunks topK).length = topK ∧
    (∃ L : List (ℕ × ScoredChunk),
      L.Perm (scoredList q chunks).enum ∧
      List.Pairwise rankedBefore L ∧
      findBestMatches q chunks topK = (L.take topK).map (fun p => p.2.chunk)) ∧
    (topK ≤ chunks.countP (scoreAboveSentinel q) →
      ∀ c ∈ findBestMatches q chunks topK, c.embedding.isSome) := by
  have hsc : ∀ s ∈ scoredList q chunks, ∃ x, s.score = some x :=
    scoredList_score q chunks hsome
  have hagree : ∀ a ∈ scoredList q chunks, ∀ b ∈ scoredList q chunks,
      sortLe a b = keyLe a b :=
    fun a ha b hb => sortLe_eq_keyLe a b (hsc a ha) (hsc b hb)
  have hcongr : (scoredList q chunks).mergeSort sortLe =
      (scoredList q chunks).mergeSort keyLe :=
    mergeSort_congr sortLe keyLe _ hagree
  have henum : ((scoredList q chunks).enum.mergeSort (List.enumLE keyLe)).map Prod.snd =
      (scoredList q chunks).mergeSort keyLe :=
    List.mergeSort_enum
  set L := (scoredList q chunks).enum.mergeSort (List.enumLE keyLe) with hLdef
  have hperm : L.Perm (scoredList q chunks).enum := List.mergeSort_perm _ _
  have hpw : L.Pairwise (fun a b => List.enumLE keyLe a b = true) :=
    List.sorted_mergeSort (fun a b c => List.enumLE_trans keyLe_trans a b c)
      (List.enumLE_total keyLe_total) _
  have hLlen : L.length = chunks.length := by
    rw [hperm.length_eq, List.enum_length, scoredList, List.length_map]
  have hLmem : ∀ p ∈ L, p.2 ∈ scoredList q chunks := by
    intro p hp
    exact List.snd_mem_of_mem_enum (hperm.mem_iff.mp hp)
  have hres : findBestMatches q chunks topK = (L.take topK).map (fun p => p.2.chunk) := by
    rw [findBestMatches, hcongr, ← henum]
    simp only [List.map_take, List.map_map]
    rfl
  have hlen : (findBestMatches q chunks topK).length = topK := by
    rw [hres, List.length_map, List.length_take, hLlen]
    omega
  refine ⟨hlen, ⟨L, hperm, ?_, hres⟩, ?_⟩
  · -- strict pairwise order from sortedness plus distinct indices
    have hnodup : (L.map Prod.fst).Nodup := by
      have h0 : ((scoredList q chunks).enum.map Prod.fst).Nodup := by
        rw [List.enum_map_fst]
        exact List.nodup_range _
      exact ((hperm.map Prod.fst).nodup_iff).mpr h0
    have hpairNe : L.Pairwise (fun x y : ℕ × ScoredChunk => x.1 ≠ y.1) :=
      List.pairwise_map.mp hnodup
    refine (hpw.and hpairNe).imp_of_mem ?_
    intro a b ha hb hab
    obtain ⟨hle, hne⟩ := hab
    obtain ⟨xa, hxa⟩ := hsc a.2 (hLmem a ha)
    obtain ⟨xb, hxb⟩ := hsc b.2 (hLmem b hb)
    have hka : keyOf a.2 = (xa : WithBot ℝ) := by rw [keyOf, hxa]
    have hkb : keyOf b.2 = (xb : WithBot ℝ) := by rw [keyOf, hxb]
    rw [List.enumLE] at hle
    by_cases h1 : keyLe a.2 b.2 = true
    · rw [if_pos h1] at hle
      by_cases h2 : keyLe b.2 a.2 = true
      · rw [if_pos h2] at hle
        rw [keyLe, decide_eq_true_eq, hka, hkb, WithBot.coe_le_coe] at h1 h2
        have hxeq : xa = xb := le_antisymm h2 h1
        refine Or.inr ⟨by rw [hxa, hxb, hxeq], ?_⟩
        have : a.1 ≤ b.1 := by
          simpa using hle
        omega
      · rw [keyLe, decide_eq_true_eq, hka, hkb, WithBot.coe_le_coe] at h2
        exact Or.inl ⟨xa, xb, hxa, hxb, lt_of_not_le h2⟩
    · rw [if_neg h1] at hle
      exact absurd hle (by simp)
  · -- exclusion of missing-embedding chunks
    intro hcount c hcres
    by_contra hnone
    rw [Bool.not_eq_true] at hnone
    have hnone2 : c.embedding = none := by
      cases hemb : c.embedding with
      | none => rfl
      | some v =>
          rw [hemb] at hnone
          simp at hnone
    rw [hres, List.mem_map] at hcres
    obtain ⟨p, hpTake, hpc⟩ := hcres
    have hpL : p ∈ L := List.mem_of_mem_take hpTake
    have hpscored := hLmem p hpL
    have hpscore : p.2.score = some (-1) := by
      rw [scoredList, List.mem_map] at hpscored
      obtain ⟨c2, _, hc2⟩ := hpscored
      have hcc : c2 = c := by rw [← hpc, ← hc2]
      rw [← hc2, hcc]
      show scoreOf q c = some (-1)
      rw [scoreOf, hnone2]
    -- count of above-sentinel scores in L is the corpus count
    have hcountL : L.countP (fun p => scoredAbove p.2) =
        chunks.countP (scoreAboveSentinel q) := by
      rw [hperm.countP_eq]
      rw [show (fun p : ℕ × ScoredChunk => scoredAbove p.2) =
        (scoredAbove ∘ Prod.snd) from rfl]
      rw [← List.countP_map (p := scoredAbove) (f := Prod.snd), List.enum_map_snd]
      rw [scoredList, List.countP_map]
      rfl
    -- split L around p
    obtain ⟨t1, t2, ht⟩ := List.append_of_mem hpTake
    have hLsplit : L = t1 ++ p :: (t2 ++ L.drop topK) := by
      conv_lhs => rw [← List.take_append_drop topK L, ht]
      simp [List.append_assoc]
    have ht1len : t1.length + 1 + t2.length ≤ topK := by
      have h1 : (L.take topK).length ≤ topK := by
        rw [List.length_take]
        omega
      rw [ht] at h1
      simp [List.length_append] at h1
      omega
    -- everything after p scores at most −1
    have hafter : ∀ y ∈ t2 ++ L.drop topK, scoredAbove y.2 = false := by
      intro y hy
      have hpair := hpw
      rw [hLsplit, List.pairwise_append] at hpair
      have hrel := (List.pairwise_cons.mp hpair.2.1).1 y hy
      rw [List.enumLE] at hrel
      have hkeyle : keyLe p.2 y.2 = true := by
        by_cases hcase : keyLe p.2 y.2 = true
        · exact hcase
        · rw [if_neg hcase] at hrel
          exact absurd hrel (by simp)
      rw [keyLe, decide_eq_true_eq] at hkeyle
      have hkp : keyOf p.2 = ((-1 : ℝ) : WithBot ℝ) := by rw [keyOf, hpscore]
      rw [hkp] at hkeyle
      rw [scoredAbove]
      cases hys : y.2.score with
      | none => rfl
      | some v =>
          have : keyOf y.2 = (v : WithBot ℝ) := by rw [keyOf, hys]
          rw [this, WithBot.coe_le_coe] at hkeyle
          simp only [decide_eq_false_iff_not, not_lt]
          exact hkeyle
    have hcount2 : L.countP (fun p => scoredAbove p.2) ≤ t1.length := by
      rw [hLsplit, List.countP_append, List.countP_cons]
      have hz : (t2 ++ L.drop topK).countP (fun p => scoredAbove p.2) = 0 := by
        rw [List.countP_eq_zero]
        intro y hy
        rw [hafter y hy]
        exact Bool.false_ne_true
      have hp0 : scoredAbove p.2 = false := by
        rw [scoredAbove, hpscore]
        simp
      have hle := List.countP_le_length (p := fun p : ℕ × ScoredChunk => scoredAbove p.2)
        (l := t1)
      rw [hz, hp0]
      simp only [if_false, Bool.false_eq_true, Nat.add_zero, Nat.zero_add]
      omega
    rw [hcountL] at hcount2
    omega

/-! ## Concrete score evaluations -/

theorem cosine_one_negOne : cosineSimilarity [(1:ℝ)] [(-1:ℝ)] = some (-1) := by
  have hd : dotProduct [(1:ℝ)] [(-1:ℝ)] = some (-1) := by
    simp [dotProduct, List.enum, List.enumFrom]
  have h1 : magnitude [(1:ℝ)] = 1 := by
    rw [magnitude]
    simp
  have h2 : magnitude [(-1:ℝ)] = 1 := by
    rw [magnitude]
    simp
  rw [cosineSimilarity, hd, h1, h2]
  norm_num

theorem cosine_one_one : cosineSimilarity [(1:ℝ)] [(1:ℝ)] = some 1 := by
  have hd : dotProduct [(1:ℝ)] [(1:ℝ)] = some 1 := by
    simp [dotProduct, List.enum, List.enumFrom]
  have h1 : magnitude [(1:ℝ)] = 1 := by
    rw [magnitude]
    simp
  rw [cosineSimilarity, hd, h1]
  norm_num

/-! ## Matcher: the −1 sentinel ties with a cosine of −1 (claim C1) -/

/-- A corpus chunk with no embedding field. -/
def cexMissing : DocumentChunk :=
  ⟨"c1".data, "d".data, "D".data, "missing embedding".data, none⟩

/-- A corpus chunk with a valid embedding anti-parallel to the query. -/
def cexValid : DocumentChunk :=
  ⟨"c2".data, "d".data, "D".data, "valid embedding".data, some [(-1 : ℝ)]⟩

/-- Counterexample for C1 as stated: for the query [1] the valid chunk
[−1] has cosine exactly −1, which ties with the missing-embedding
sentinel −1; the stable sort keeps corpus order, so with topK = 1 the
missing-embedding chunk is returned even though a valid-embedding chunk
is available. -/
theorem findBestMatches_sentinel_tie_cex :
    findBestMatches [(1:ℝ)] [cexMissing, cexValid] 1 = [cexMissing] ∧
    cexMissing.embedding = none ∧
    cexValid.embedding.isSome = true ∧
    1 ≤ [cexMissing, cexValid].countP (fun c => c.embedding.isSome) := by
  have hscored : scoredList [(1:ℝ)] [cexMissing, cexValid] =
      [⟨cexMissing, some (-1)⟩, ⟨cexValid, some (-1)⟩] := by
    rw [scoredList]
    simp [scoreOf, cexMissing, cexValid, cosine_one_negOne]
  have hsorted : List.Pairwise (fun a b => sortLe a b = true)
      [(⟨cexMissing, some (-1)⟩ : ScoredChunk), ⟨cexValid, some (-1)⟩] := by
    simp [List.pairwise_cons, sortLe]
  have hms : ([(⟨cexMissing, some (-1)⟩ : ScoredChunk),
      ⟨cexValid, some (-1)⟩].mergeSort sortLe) =
      [⟨cexMissing, some (-1)⟩, ⟨cexValid, some (-1)⟩] :=
    List.mergeSort_of_sorted hsorted
  refine ⟨?_, rfl, rfl, by simp [cexMissing, cexValid]⟩
  rw [findBestMatches, hscored, hms]
  rfl

/-- A corpus chunk whose embedding is parallel to the query [1]. -/
def cw1 : DocumentChunk :=
  ⟨"w1".data, "d".data, "D".data, "aligned chunk".data, some [(1 : ℝ)]⟩

/-- Witness for C1 (amended) on a one-chunk corpus with a well-defined
score. -/
theorem findBestMatches_stable_sorted_witness :
    (∀ c ∈ [cw1], ∃ x, scoreOf [(1:ℝ)] c = some x) ∧
    1 ≤ ([cw1] : List DocumentChunk).length ∧
    (findBestMatches [(1:ℝ)] [cw1] 1).length = 1 := by
  have hsome : ∀ c ∈ [cw1], ∃ x, scoreOf [(1:ℝ)] c = some x := by
    intro c hc
    rw [List.mem_singleton] at hc
    subst hc
    exact ⟨1, by rw [scoreOf]; exact cosine_one_one⟩
  exact ⟨hsome, by simp,
    (findBestMatches_stable_sorted [(1:ℝ)] [cw1] 1 hsome (by simp)).1⟩

/-! ## Matcher: result length and sentinel fill (claim C10) -/

/-- C10: `findBestMatches` always returns exactly min(topK, N) chunks; when
fewer than topK chunks carry an embedding, the missing-embedding chunks
(sentinel score −1) fill the remaining slots instead of being omitted: at
least topK − (number of embedding-carrying chunks) of the returned chunks
have no embedding. -/
theorem findBestMatches_min_length (q : List ℝ) (chunks : List DocumentChunk) (topK : ℕ) :
    (findBestMatches q chunks topK).length = min topK chunks.length ∧
    (topK ≤ chunks.length →
      topK - chunks.countP (fun c => c.embedding.isSome) ≤
        (findBestMatches q chunks topK).countP (fun c => c.embedding.isNone)) := by
  have hlen : (findBestMatches q chunks topK).length = min topK chunks.length := by
    rw [findBestMatches, List.length_map, List.length_take, List.length_mergeSort,
      scoredList, List.length_map]
  refine ⟨hlen, fun hk => ?_⟩
  set S := (scoredList q chunks).mergeSort sortLe with hS
  have hSperm : S.Perm (scoredList q chunks) := List.mergeSort_perm _ _
  have hT : findBestMatches q chunks topK = (S.take topK).map ScoredChunk.chunk := rfl
  have h1 : (S.take topK).countP (fun s => s.chunk.embedding.isSome) ≤
      chunks.countP (fun c => c.embedding.isSome) := by
    calc (S.take topK).countP (fun s => s.chunk.embedding.isSome)
        ≤ S.countP (fun s => s.chunk.embedding.isSome) :=
          (List.take_sublist _ _).countP_le _
      _ = (scoredList q chunks).countP (fun s => s.chunk.embedding.isSome) :=
          hSperm.countP_eq _
      _ = chunks.countP (fun c => c.embedding.isSome) := by
          rw [scoredList, List.countP_map]
          rfl
  have h2 : (S.take topK).length = topK := by
    rw [List.length_take, List.length_mergeSort, scoredList, List.length_map]
    omega
  have h3 : (findBestMatches q chunks topK).countP (fun c => c.embedding.isNone) =
      (S.take topK).countP (fun s => s.chunk.embedding.isNone) := by
    rw [hT, List.countP_map]
    rfl
  have h4 : (findBestMatches q chunks topK).countP (fun c => c.embedding.isSome) =
      (S.take topK).countP (fun s => s.chunk.embedding.isSome) := by
    rw [hT, List.countP_map]
    rfl
  have hsplit : (S.take topK).length =
      (S.take topK).countP (fun s => s.chunk.embedding.isSome) +
      (S.take topK).countP (fun s => !(s.chunk.embedding.isSome)) := by
    have h0 := List.length_eq_countP_add_countP
      (p := fun s : ScoredChunk => s.chunk.embedding.isSome) (S.take topK)
    have h0' : (List.countP (fun a : ScoredChunk =>
        decide ¬(a.chunk.embedding.isSome = true)) (S.take topK)) =
        (S.take topK).countP (fun s => !(s.chunk.embedding.isSome)) := by
      congr 1
      funext s
      cases s.chunk.embedding <;> rfl
    rw [h0, h0']
  have hnone : (S.take topK).countP (fun s => s.chunk.embedding.isNone) =
      (S.take topK).countP (fun s => !(s.chunk.embedding.isSome)) := by
    congr 1
    funext s
    cases s.chunk.embedding <;> rfl
  rw [h3, hnone]
  omega

/-- A chunk with no embedding used for the C10 witness. -/
def cw10 : DocumentChunk :=
  ⟨"w10".data, "d".data, "D".data, "no embedding here".data, none⟩

/-- Witness for C10: a one-chunk corpus without embeddings, topK = 1; the
missing-embedding chunk fills the single slot. -/
theorem findBestMatches_min_length_witness :
    (findBestMatches [] [cw10] 1).length = min 1 1 ∧
    1 ≤ ([cw10] : List DocumentChunk).length ∧
    1 - [cw10].countP (fun c => c.embedding.isSome) ≤
      (findBestMatches [] [cw10] 1).countP (fun c => c.embedding.isNone) :=
  ⟨(findBestMatches_min_length [] [cw10] 1).1, by simp,
    (findBestMatches_min_length [] [cw10] 1).2 (by simp)⟩

/-! ## Empty query embedding: the three caller paths (claim C3) -/

/-- A corpus chunk used to exercise the live tool-call path. -/
def liveCexChunk : DocumentChunk :=
  ⟨"s".data, "d".data, "D".data, "seed text".data, some [(1 : ℝ)]⟩

/-- C3: when the query embedding comes back empty (failed embedding), the
normal chat turn and the detailed-report turn fall back to the empty match
set through their shared guard, but the live-session tool-call path has no
such guard: it calls `findBestMatches` with the zero-length query vector
and returns up to three chunks of the store anyway. -/
theorem emptyEmbedding_callers_divergence :
    guardedMatches [([] : List ℝ)] [liveCexChunk] 5 = [] ∧
    guardedMatches [([] : List ℝ)] [liveCexChunk] 8 = [] ∧
    getEmbeddings (fun _ => EmbedOutcome.err) ["moon sighting".data] = [[]] ∧
    liveSearchMatches (fun _ => EmbedOutcome.err) [liveCexChunk] "moon sighting".data =
      [liveCexChunk] ∧
    [liveCexChunk] ≠ ([] : List DocumentChunk) := by
  refine ⟨rfl, rfl, rfl, ?_, by simp⟩
  rw [liveSearchMatches,
    show getEmbeddings (fun _ => EmbedOutcome.err) ["moon sighting".data] = [[]] from rfl]
  rw [findBestMatches, scoredList]
  simp

/-! ## Length mismatch is not an error (claim C4) -/

theorem dotZeros (B : List ℝ) : ∀ (k n : ℕ) (acc : Option ℝ), n + k ≤ B.length →
    (List.enumFrom n (List.replicate k (0:ℝ))).foldl
      (fun sum p =>
        match sum, B.get? p.1 with
        | some s, some b => some (s + p.2 * b)
        | _, _ => none) acc = acc
  | 0, n, acc, _ => by simp
  | k + 1, n, acc, h => by
    rw [List.replicate_succ, List.enumFrom_cons, List.foldl_cons]
    have hn : n < B.length := by omega
    have hbeq : B.get? n = some (B.get ⟨n, hn⟩) := List.get?_eq_get hn
    have hstep : (match acc, B.get? n with
        | some s, some b => some (s + (0:ℝ) * b)
        | _, _ => none) = acc := by
      cases acc with
      | none => rw [hbeq]
      | some s =>
          rw [hbeq]
          norm_num
    rw [hstep]
    exact dotZeros B k (n + 1) acc (by omega)

theorem dotProduct_append_zero (A B : List ℝ) (k : ℕ) (h : A.length + k ≤ B.length) :
    dotProduct (A ++ List.replicate k 0) B = dotProduct A B := by
  rw [dotProduct, dotProduct, List.enum_append, List.foldl_append]
  exact dotZeros B k A.length _ h

theorem foldl_sq_zeros : ∀ (k : ℕ) (x : ℝ),
    (List.replicate k (0:ℝ)).foldl (fun sum a => sum + a * a) x = x
  | 0, x => by simp
  | k + 1, x => by
    rw [List.replicate_succ, List.foldl_cons]
    rw [show x + (0:ℝ) * 0 = x by norm_num]
    exact foldl_sq_zeros k x

theorem magnitude_append_zero (A : List ℝ) (k : ℕ) :
    magnitude (A ++ List.replicate k 0) = magnitude A := by
  rw [magnitude, magnitude, List.foldl_append, foldl_sq_zeros]

/-- C4 (amended): a length mismatch between the query and a chunk
embedding raises no error.  When the query is strictly shorter than the
chunk vector, the code silently produces exactly the score of the query
zero-padded to the chunk length (a valid score); when the query is
longer, the out-of-range index access poisons the dot product with NaN,
which also flows on without an error. -/
theorem cosine_zero_pad (A B : List ℝ) (h : A.length ≤ B.length) :
    cosineSimilarity A B =
      cosineSimilarity (A ++ List.replicate (B.length - A.length) 0) B := by
  rw [cosineSimilarity, cosineSimilarity,
    dotProduct_append_zero A B (B.length - A.length) (by omega),
    magnitude_append_zero]

/-- Witness for C4 (amended) at the query [1] against the vector [1, 0]. -/
theorem cosine_zero_pad_witness :
    ([(1:ℝ)] : List ℝ).length ≤ ([(1:ℝ), 0] : List ℝ).length ∧
    cosineSimilarity [(1:ℝ)] [(1:ℝ), 0] =
      cosineSimilarity
        ([(1:ℝ)] ++ List.replicate (([(1:ℝ), 0] : List ℝ).length - ([(1:ℝ)] : List ℝ).length) 0)
        [(1:ℝ), 0] :=
  ⟨by simp, cosine_zero_pad [(1:ℝ)] [(1:ℝ), 0] (by simp)⟩

/-- Counterexample for C4 as stated: the mismatched comparison of [1]
against [1, 0] is not treated as an error; it yields the valid score 1,
identical to the score of the zero-padded query [1, 0]. -/
theorem cosine_mismatch_cex :
    ([(1:ℝ)] : List ℝ).length ≠ ([(1:ℝ), 0] : List ℝ).length ∧
    cosineSimilarity [(1:ℝ)] [(1:ℝ), 0] = some 1 ∧
    cosineSimilarity [(1:ℝ), 0] [(1:ℝ), 0] = some 1 := by
  have hm1 : magnitude [(1:ℝ)] = 1 := by
    rw [magnitude]
    simp
  have hm2 : magnitude [(1:ℝ), 0] = 1 := by
    rw [magnitude]
    norm_num
  refine ⟨by simp, ?_, ?_⟩
  · have hd : dotProduct [(1:ℝ)] [(1:ℝ), 0] = some 1 := by
      simp [dotProduct, List.enum, List.enumFrom]
    rw [cosineSimilarity, hd, hm1, hm2]
    norm_num
  · have hd : dotProduct [(1:ℝ), 0] [(1:ℝ), 0] = some 1 := by
      simp [dotProduct, List.enum, List.enumFrom]
    rw [cosineSimilarity, hd, hm2]
    norm_num

/-! ## Live session tool call (claim C7) -/

theorem jsJoin_infix (sep : Str) : ∀ (parts : List Str) (s : Str), s ∈ parts →
    ∃ pre post, jsJoin sep parts = pre ++ s ++ post
  | [], s, h => absurd h (List.not_mem_nil s)
  | [t], s, h => by
    rw [List.mem_singleton] at h
    exact ⟨[], [], by simp [jsJoin, h]⟩
  | t :: t2 :: rest, s, h => by
    rcases List.mem_cons.mp h with h1 | h2
    · refine ⟨[], sep ++ jsJoin sep (t2 :: rest), ?_⟩
      rw [jsJoin, h1]
      simp
    · obtain ⟨pre, post, hpp⟩ := jsJoin_infix sep (t2 :: rest) s h2
      refine ⟨t ++ sep ++ pre, post, ?_⟩
      rw [jsJoin, hpp]
      simp

/-- C7: for a reported tool call named `search_knowledge_base`, the
handler answers with a payload correlated by the call identifier, whose
result is the double-newline join of the texts of the top-3 matches of the
embedded query over the full chunk store — or the sentinel string when
that join is empty.  When some retrieved chunk (for instance one
mentioning the queried topic) has non-empty text and the join is not
literally the sentinel string, the result is non-sentinel and contains
that chunk's text. -/
theorem liveToolCall_correlated (embed : Str → EmbedOutcome) (allChunks : List DocumentChunk)
    (fc : LiveFunctionCall) (c : DocumentChunk)
    (hname : fc.name = "search_knowledge_base".data)
    (hc : c ∈ liveSearchMatches embed allChunks fc.query)
    (hct : c.text ≠ [])
    (hns : jsJoin "\n\n".data
        ((liveSearchMatches embed allChunks fc.query).map DocumentChunk.text) ≠
      "No relevant documents found.".data) :
    ∃ resp, handleLiveToolCall embed allChunks fc = some resp ∧
      resp.id = fc.id ∧
      resp.name = fc.name ∧
      resp.result = jsJoin "\n\n".data
        ((findBestMatches ((getEmbeddings embed [fc.query]).headD []) allChunks 3).map
          DocumentChunk.text) ∧
      resp.result ≠ "No relevant documents found.".data ∧
      ∃ pre post, resp.result = pre ++ c.text ++ post := by
  have hinfix : ∃ pre post, jsJoin "\n\n".data
      ((liveSearchMatches embed allChunks fc.query).map DocumentChunk.text) =
      pre ++ c.text ++ post :=
    jsJoin_infix _ _ _ (List.mem_map_of_mem DocumentChunk.text hc)
  have hjne : jsJoin "\n\n".data
      ((liveSearchMatches embed allChunks fc.query).map DocumentChunk.text) ≠ [] := by
    obtain ⟨pre, post, hpp⟩ := hinfix
    rw [hpp]
    intro h0
    rcases List.append_eq_nil.mp h0 with ⟨h1, _⟩
    rcases List.append_eq_nil.mp h1 with ⟨_, h2⟩
    exact hct h2
  have hval : handleLiveToolCall embed allChunks fc =
      some ⟨fc.id, fc.name, jsJoin "\n\n".data
        ((liveSearchMatches embed allChunks fc.query).map DocumentChunk.text)⟩ := by
    rw [handleLiveToolCall, if_pos hname]
    simp only [if_neg hjne]
  refine ⟨_, hval, rfl, rfl, rfl, hns, hinfix⟩

/-- The corpus chunk for the C7 witness. -/
def moonChunk : DocumentChunk :=
  ⟨"m".data, "d".data, "Docs".data, "moon sighting info".data, some [(1 : ℝ)]⟩

/-- Witness for C7 at a concrete tool call against a one-chunk corpus. -/
theorem liveToolCall_correlated_witness :
    ((⟨"call-1".data, "search_knowledge_base".data, "moon sighting".data⟩ :
        LiveFunctionCall).name = "search_knowledge_base".data) ∧
    moonChunk ∈ liveSearchMatches (fun _ => EmbedOutcome.ok [1]) [moonChunk]
      "moon sighting".data ∧
    ∃ resp, handleLiveToolCall (fun _ => EmbedOutcome.ok [1]) [moonChunk]
        ⟨"call-1".data, "search_knowledge_base".data, "moon sighting".data⟩ = some resp ∧
      resp.id = "call-1".data ∧
      resp.result ≠ "No relevant documents found.".data ∧
      ∃ pre post, resp.result = pre ++ moonChunk.text ++ post := by
  have hmatches : liveSearchMatches (fun _ => EmbedOutcome.ok [1]) [moonChunk]
      "moon sighting".data = [moonChunk] := by
    rw [liveSearchMatches,
      show getEmbeddings (fun _ => EmbedOutcome.ok [1]) ["moon sighting".data] = [[1]]
        from rfl]
    rw [findBestMatches, scoredList]
    simp
  have hmem : moonChunk ∈ liveSearchMatches (fun _ => EmbedOutcome.ok [1]) [moonChunk]
      "moon sighting".data := by
    rw [hmatches]
    simp
  have hns : jsJoin "\n\n".data
      ((liveSearchMatches (fun _ => EmbedOutcome.ok [1]) [moonChunk]
        "moon sighting".data).map DocumentChunk.text) ≠
      "No relevant documents found.".data := by
    rw [hmatches]
    decide
  obtain ⟨resp, hresp, hid, -, -, hnsr, hinf⟩ :=
    liveToolCall_correlated (fun _ => EmbedOutcome.ok [1]) [moonChunk]
      ⟨"call-1".data, "search_knowledge_base".data, "moon sighting".data⟩ moonChunk
      rfl hmem (by decide) hns
  exact ⟨rfl, hmem, resp, hresp, hid, hnsr, hinf⟩

end Chatbot
